import Mathlib

/-! Verification of the three-period lifecycle savings solver in
question-1.py: a shallow embedding of its parameters, CRRA utility,
terminal value, per-cell optimization objectives, the np.interp
evaluation of the middle-stage value table, and the two per-cell stage
solvers.  The bounded scalar minimizer (scipy.optimize.minimize_scalar
with method bounded) is abstracted as a function argument `opt`; the
theorems assume, where needed, exactly the ScalarOptimizer contract:
the returned point lies in the bounds and minimizes the objective
there. -/

namespace Question1

noncomputable section

/-- Relative risk aversion (source line 11): `gamma = 2.0`. -/
def gamma : ℝ := 2.0

/-- Twenty-year discount factor (source line 12): `beta = 0.985**20`. -/
def beta : ℝ := 0.985 ^ (20 : ℕ)

/-- Twenty-year interest rate (source line 13): `r = 1.025**20 - 1`. -/
def r : ℝ := 1.025 ^ (20 : ℕ) - 1

/-- The three productivity types / wages (source line 16). -/
def w : Fin 3 → ℝ := ![0.8027, 1.0, 1.2457]

/-- Transition probability matrix (source lines 20-22). -/
def P : Fin 3 → Fin 3 → ℝ :=
  ![![0.7451, 0.2528, 0.0021],
    ![0.1360, 0.7281, 0.1360],
    ![0.0021, 0.2528, 0.7451]]

/-- Grid lower bound (source line 25). -/
def a_min : ℝ := 0.0

/-- Grid upper bound (source line 26). -/
def a_max : ℝ := 5.0

/-- Asset grid (source line 28): `np.linspace(0, 5, 100)`, whose j-th
point is `a_min + j * (a_max - a_min) / 99`. -/
def a_grid (j : Fin 100) : ℝ := a_min + (j.val : ℝ) * (a_max - a_min) / 99

/-- Numerical floor (source line 31): `EPS = 1e-8`. -/
def EPS : ℝ := 1e-8

/-- CRRA utility with the consumption floor (source lines 34-37):
`max(c, EPS) ** (1 - gamma) / (1 - gamma)`. -/
def utility (c : ℝ) : ℝ := (max c EPS) ^ (1 - gamma) / (1 - gamma)

/-- Old-age value function (source lines 40-43): consume all matured
assets. -/
def V_old (a3 : ℝ) : ℝ := utility ((1 + r) * a3)

/-- Total resources of a cell (source lines 54 and 93):
`(1 + r) * a_grid[j] + w[i]`. -/
def totalRes (i : Fin 3) (j : Fin 100) : ℝ := (1 + r) * a_grid j + w i

/-- Middle-age per-cell objective (source lines 57-66), a closure over
the cell's `total_resources`: the penalty branch for infeasible
consumption, otherwise the negated value. -/
def objectiveMid (tr a3 : ℝ) : ℝ :=
  if tr - a3 ≤ EPS then 1e10 else -(utility (tr - a3) + beta * V_old a3)

/-- Index helper clamped into `Fin 100`. -/
def gridIdx (n : ℕ) : Fin 100 := ⟨min n 99, Nat.lt_succ_of_le (Nat.min_le_right n 99)⟩

/-- Bracketing index for np.interp on the uniform grid: for
`0 < x < 5` the segment containing `x` starts at grid index
`⌊x / step⌋` with `step = (a_max - a_min) / 99`; the clamp to 98 is
redundant there and keeps the definition total. -/
def bracket (x : ℝ) : ℕ := min (⌊x / ((a_max - a_min) / 99)⌋.toNat) 98

/-- Model of `np.interp(x, a_grid, row)` (source line 104) on the
strictly increasing grid `a_grid`: the value is clamped to the first
table entry below the grid, to the last entry above it, and is the
piecewise-linear interpolation between the two bracketing grid points
in between. -/
def interp (row : Fin 100 → ℝ) (x : ℝ) : ℝ :=
  if x ≤ a_min then row (gridIdx 0)
  else if a_max ≤ x then row (gridIdx 99)
  else
    row (gridIdx (bracket x)) +
      (row (gridIdx (bracket x + 1)) - row (gridIdx (bracket x))) *
        (x - a_grid (gridIdx (bracket x))) /
          (a_grid (gridIdx (bracket x + 1)) - a_grid (gridIdx (bracket x)))

/-- Expected middle-age continuation value (source lines 102-105); the
accumulation loop over the three destination types unrolled. -/
def expectedVm (Vm : Fin 3 → Fin 100 → ℝ) (i : Fin 3) (a2 : ℝ) : ℝ :=
  P i 0 * interp (Vm 0) a2 + P i 1 * interp (Vm 1) a2 + P i 2 * interp (Vm 2) a2

/-- Young-age per-cell objective (source lines 96-108), a closure over
the cell's `total_resources` and the middle-age value table. -/
def objectiveYoung (Vm : Fin 3 → Fin 100 → ℝ) (i : Fin 3) (tr a2 : ℝ) : ℝ :=
  if tr - a2 ≤ EPS then 1e10
  else -(utility (tr - a2) + beta * expectedVm Vm i a2)

/-- Generic shape shared by the two per-cell code objectives:
continuation value `W`, penalty branch, negation. -/
def genObj (W : ℝ → ℝ) (tr a : ℝ) : ℝ :=
  if tr - a ≤ EPS then 1e10 else -(utility (tr - a) + beta * W a)

/-- The maximization objective of spec section 4.3:
`utility(total_resources - a3) + beta * terminal_value(a3)`. -/
def midObjective (tr a3 : ℝ) : ℝ := utility (tr - a3) + beta * V_old a3

/-- The maximization objective of spec section 4.4:
`utility(total_resources - a2) + beta * sum_k P[i,k] * interp(value_middle[k,:], a2)`. -/
def youngObjective (Vm : Fin 3 → Fin 100 → ℝ) (i : Fin 3) (tr a2 : ℝ) : ℝ :=
  utility (tr - a2) + beta * expectedVm Vm i a2

/-- Generic unpenalized objective. -/
def trueObj (W : ℝ → ℝ) (tr a : ℝ) : ℝ := utility (tr - a) + beta * W a

/-- One cell of `solve_middle_age` (source lines 52-80): compute the
bounds `(0, max(0, total_resources - EPS))`, take the optimize branch
when the upper bound is positive and the degenerate fallback
otherwise.  `opt f lo hi` stands for the `minimize_scalar` call; as in
the source the recorded value is the negated objective at the returned
point. -/
def solveMiddleCellTR (opt : (ℝ → ℝ) → ℝ → ℝ → ℝ) (tr : ℝ) : ℝ × ℝ :=
  if 0 < max 0 (tr - EPS) then
    (opt (objectiveMid tr) 0 (max 0 (tr - EPS)),
      -(objectiveMid tr (opt (objectiveMid tr) 0 (max 0 (tr - EPS)))))
  else (0, utility tr)

/-- Cell (i, j) of the middle-age tables. -/
def solveMiddleCell (opt : (ℝ → ℝ) → ℝ → ℝ → ℝ) (i : Fin 3) (j : Fin 100) : ℝ × ℝ :=
  solveMiddleCellTR opt (totalRes i j)

/-- Entry of `policy_middle` (source line 80). -/
def policyMiddle (opt : (ℝ → ℝ) → ℝ → ℝ → ℝ) (i : Fin 3) (j : Fin 100) : ℝ :=
  (solveMiddleCell opt i j).1

/-- Entry of `V_middle` (source line 79). -/
def valueMiddle (opt : (ℝ → ℝ) → ℝ → ℝ → ℝ) (i : Fin 3) (j : Fin 100) : ℝ :=
  (solveMiddleCell opt i j).2

/-- One cell of `solve_young_age` (source lines 90-122), parameterized
like the source by the middle-age value table `Vm`. -/
def solveYoungCellTR (opt : (ℝ → ℝ) → ℝ → ℝ → ℝ) (Vm : Fin 3 → Fin 100 → ℝ)
    (i : Fin 3) (tr : ℝ) : ℝ × ℝ :=
  if 0 < max 0 (tr - EPS) then
    (opt (objectiveYoung Vm i tr) 0 (max 0 (tr - EPS)),
      -(objectiveYoung Vm i tr (opt (objectiveYoung Vm i tr) 0 (max 0 (tr - EPS)))))
  else (0, utility tr)

/-- Cell (i, j) of the young-age tables. -/
def solveYoungCell (opt : (ℝ → ℝ) → ℝ → ℝ → ℝ) (Vm : Fin 3 → Fin 100 → ℝ)
    (i : Fin 3) (j : Fin 100) : ℝ × ℝ :=
  solveYoungCellTR opt Vm i (totalRes i j)

/-- Entry of `policy_young` (source line 122). -/
def policyYoung (opt : (ℝ → ℝ) → ℝ → ℝ → ℝ) (Vm : Fin 3 → Fin 100 → ℝ)
    (i : Fin 3) (j : Fin 100) : ℝ :=
  (solveYoungCell opt Vm i j).1

/-- Entry of `V_young` (source line 121). -/
def valueYoung (opt : (ℝ → ℝ) → ℝ → ℝ → ℝ) (Vm : Fin 3 → Fin 100 → ℝ)
    (i : Fin 3) (j : Fin 100) : ℝ :=
  (solveYoungCell opt Vm i j).2

/-- All-zero middle-age value table, used to instantiate theorems at a
concrete input. -/
def zeroTable : Fin 3 → Fin 100 → ℝ := fun _ _ => 0

/-- Trivial bounded optimizer returning the lower bound, used to
instantiate the in-bounds contract at a concrete input. -/
def lowOpt : (ℝ → ℝ) → ℝ → ℝ → ℝ := fun _ lo _ => lo

open Classical in
/-- Exact bounded minimizer: returns a global minimizer of `f` on
`[lo, hi]` whenever one exists (the idealized ScalarOptimizer of spec
section 4.5), and `lo` otherwise. -/
def argminOn (f : ℝ → ℝ) (lo hi : ℝ) : ℝ :=
  if h : ∃ x ∈ Set.Icc lo hi, ∀ y ∈ Set.Icc lo hi, f x ≤ f y then h.choose else lo

end

/-! Basic numeric facts about the fixed parameters. -/

lemma EPS_pos : (0 : ℝ) < EPS := by norm_num [EPS]

lemma beta_le : beta ≤ 0.985 := by rw [beta]; norm_num

lemma beta_ge : (0.7 : ℝ) ≤ beta := by rw [beta]; norm_num

lemma beta_pos : (0 : ℝ) < beta := lt_of_lt_of_le (by norm_num) beta_ge

lemma onePlusR_ge : (1 : ℝ) ≤ 1 + r := by rw [r]; norm_num

lemma onePlusR_le : (1 : ℝ) + r ≤ 2 := by rw [r]; norm_num

lemma onePlusR_pos : (0 : ℝ) < 1 + r := lt_of_lt_of_le one_pos onePlusR_ge

/-! Utility function facts. -/

lemma utility_eq (c : ℝ) : utility c = -(max c EPS)⁻¹ := by
  rw [utility, gamma]
  norm_num
  rw [Real.rpow_neg_one]
  ring

lemma utility_of_ge (c : ℝ) (h : EPS ≤ c) : utility c = -c⁻¹ := by
  rw [utility_eq, max_eq_left h]

lemma utility_of_le (c : ℝ) (h : c ≤ EPS) : utility c = -EPS⁻¹ := by
  rw [utility_eq, max_eq_right h]

lemma utility_nonpos (c : ℝ) : utility c ≤ 0 := by
  rw [utility_eq]
  have h : (0 : ℝ) < max c EPS := lt_of_lt_of_le EPS_pos (le_max_right _ _)
  simp [inv_nonneg.mpr (le_of_lt h)]

lemma utility_lt_utility (c1 c2 : ℝ) (h2 : EPS ≤ c2) (h12 : c2 < c1) :
    utility c2 < utility c1 := by
  rw [utility_of_ge c2 h2, utility_of_ge c1 (le_of_lt (lt_of_le_of_lt h2 h12))]
  have h2pos : (0 : ℝ) < c2 := lt_of_lt_of_le EPS_pos h2
  have := one_div_lt_one_div_of_lt h2pos h12
  rw [one_div, one_div] at this
  linarith

lemma utility_ge_of_ge (c b : ℝ) (hb : EPS ≤ b) (hbc : b ≤ c) : utility b ≤ utility c := by
  rcases eq_or_lt_of_le hbc with h | h
  · rw [h]
  · exact le_of_lt (utility_lt_utility c b hb h)

lemma utility_lb (c b : ℝ) (hb : EPS ≤ b) (hbc : b ≤ c) : -b⁻¹ ≤ utility c := by
  rw [← utility_of_ge b hb]; exact utility_ge_of_ge c b hb hbc

lemma V_old_nonpos (a : ℝ) : V_old a ≤ 0 := utility_nonpos _

lemma V_old_zero : V_old 0 = -EPS⁻¹ := by
  rw [V_old, mul_zero, utility_of_le 0 (le_of_lt EPS_pos)]

lemma V_old_ge : ∀ a : ℝ, -EPS⁻¹ ≤ V_old a := by
  intro a
  rw [V_old, utility_eq]
  have h : EPS ≤ max ((1 + r) * a) EPS := le_max_right _ _
  have h0 : (0 : ℝ) < EPS := EPS_pos
  have := inv_anti₀ h0 h
  linarith

/-! Grid facts. -/

lemma a_grid_nonneg (j : Fin 100) : 0 ≤ a_grid j := by
  rw [a_grid, a_min, a_max]
  positivity

lemma a_grid_strictMono (j1 j2 : Fin 100) (h : j1 < j2) : a_grid j1 < a_grid j2 := by
  rw [a_grid, a_grid, a_min, a_max]
  have hv : (j1.val : ℝ) < (j2.val : ℝ) := by exact_mod_cast h
  have : (0 : ℝ) < (5.0 - 0.0) / 99 := by norm_num
  rw [mul_div_assoc, mul_div_assoc]
  have := mul_lt_mul_of_pos_right hv this
  linarith

lemma w_ge (i : Fin 3) : 0.8027 ≤ w i := by
  fin_cases i <;> simp [w] <;> norm_num

lemma totalRes_ge (i : Fin 3) (j : Fin 100) : 0.8027 ≤ totalRes i j := by
  rw [totalRes]
  have h1 : 0 ≤ (1 + r) * a_grid j := mul_nonneg (le_of_lt onePlusR_pos) (a_grid_nonneg j)
  have h2 := w_ge i
  linarith

lemma totalRes_gt_EPS (i : Fin 3) (j : Fin 100) : EPS < totalRes i j := by
  have h := totalRes_ge i j
  rw [EPS]; norm_num at h ⊢; linarith

lemma totalRes_strictMono (i : Fin 3) (j1 j2 : Fin 100) (h : j1 < j2) :
    totalRes i j1 < totalRes i j2 := by
  rw [totalRes, totalRes]
  have := mul_lt_mul_of_pos_left (a_grid_strictMono j1 j2 h) onePlusR_pos
  linarith

/-! Branch facts about the per-cell solvers. -/

lemma max_bounds_eq (tr : ℝ) (h : EPS < tr) : max 0 (tr - EPS) = tr - EPS :=
  max_eq_right (by linarith)

lemma solveMiddleCellTR_pos (opt : (ℝ → ℝ) → ℝ → ℝ → ℝ) (tr : ℝ) (h : EPS < tr) :
    solveMiddleCellTR opt tr =
      (opt (objectiveMid tr) 0 (max 0 (tr - EPS)),
        -(objectiveMid tr (opt (objectiveMid tr) 0 (max 0 (tr - EPS))))) := by
  rw [solveMiddleCellTR, if_pos]
  rw [max_bounds_eq tr h]; linarith

lemma solveYoungCellTR_pos (opt : (ℝ → ℝ) → ℝ → ℝ → ℝ) (Vm : Fin 3 → Fin 100 → ℝ)
    (i : Fin 3) (tr : ℝ) (h : EPS < tr) :
    solveYoungCellTR opt Vm i tr =
      (opt (objectiveYoung Vm i tr) 0 (max 0 (tr - EPS)),
        -(objectiveYoung Vm i tr (opt (objectiveYoung Vm i tr) 0 (max 0 (tr - EPS))))) := by
  rw [solveYoungCellTR, if_pos]
  rw [max_bounds_eq tr h]; linarith

lemma EPS_inv : EPS⁻¹ = (1e8 : ℝ) := by rw [EPS]; norm_num

lemma utility_tr_lb (tr : ℝ) (htr : 0.8 ≤ tr) : (-1.25 : ℝ) ≤ utility tr := by
  have h := utility_lb tr 0.8 (by rw [EPS]; norm_num) htr
  norm_num at h
  linarith

lemma beta_mul_lb (z : ℝ) (hz : -EPS⁻¹ ≤ z) : -(0.985 * 1e8 : ℝ) ≤ beta * z := by
  rcases le_or_lt 0 z with h | h
  · nlinarith [beta_pos, beta_le]
  · have h1 : beta * -EPS⁻¹ ≤ beta * z := mul_le_mul_of_nonneg_left hz (le_of_lt beta_pos)
    rw [EPS_inv] at h1
    nlinarith [beta_ge, beta_le, EPS_inv]

lemma beta_mul_nonpos (z : ℝ) (hz : z ≤ 0) : beta * z ≤ 0 :=
  mul_nonpos_of_nonneg_of_nonpos (le_of_lt beta_pos) hz

/-- Shared penalty-avoidance and optimality characterization: if `x`
minimizes the penalized code objective on the feasible interval, then
the consumption at `x` is strictly above the floor, `x` maximizes the
unpenalized objective on the closed interval, and the negated code
objective at `x` is the unpenalized objective there. -/
lemma minimizer_spec (W : ℝ → ℝ) (tr x : ℝ)
    (htr : 0.8 ≤ tr)
    (hW0 : -EPS⁻¹ ≤ W 0)
    (hWneg : ∀ a ∈ Set.Icc (0 : ℝ) (tr - EPS), W a ≤ 0)
    (hmem : x ∈ Set.Icc (0 : ℝ) (tr - EPS))
    (hmin : ∀ y ∈ Set.Icc (0 : ℝ) (tr - EPS), genObj W tr x ≤ genObj W tr y) :
    EPS < tr - x ∧
      (∀ y ∈ Set.Icc (0 : ℝ) (tr - EPS), trueObj W tr y ≤ trueObj W tr x) ∧
      -(genObj W tr x) = trueObj W tr x := by
  have hEPS : EPS = (1e-8 : ℝ) := rfl
  have h0mem : (0 : ℝ) ∈ Set.Icc (0 : ℝ) (tr - EPS) :=
    ⟨le_refl 0, by rw [hEPS]; linarith⟩
  have hg0 : genObj W tr 0 = -(trueObj W tr 0) := by
    rw [genObj, if_neg (by rw [sub_zero, hEPS]; push_neg; linarith)]
    rfl
  have hf0 : (-1.25 - 0.985 * 1e8 : ℝ) ≤ trueObj W tr 0 := by
    rw [trueObj, sub_zero]
    have h1 := utility_tr_lb tr htr
    have h2 := beta_mul_lb (W 0) hW0
    linarith
  have hgx0 : genObj W tr x ≤ genObj W tr 0 := hmin 0 h0mem
  have hxpen : ¬ tr - x ≤ EPS := by
    intro hpen
    rw [genObj, if_pos hpen, hg0] at hgx0
    linarith
  have hxok : EPS < tr - x := not_le.mp hxpen
  have hgxeq : genObj W tr x = -(trueObj W tr x) := by
    rw [genObj, if_neg hxpen]; rfl
  have hfx0 : trueObj W tr 0 ≤ trueObj W tr x := by
    rw [hgxeq, hg0] at hgx0; linarith
  refine ⟨hxok, ?_, by rw [hgxeq]; ring⟩
  intro y hy
  by_cases hyp : tr - y ≤ EPS
  · have hyb : y = tr - EPS := le_antisymm hy.2 (by linarith)
    have htry : tr - y = EPS := by rw [hyb]; ring
    have h1 : trueObj W tr y ≤ -EPS⁻¹ := by
      rw [trueObj, htry, utility_of_le EPS (le_refl EPS)]
      have := beta_mul_nonpos (W y) (hWneg y hy)
      linarith
    rw [EPS_inv] at h1
    linarith
  · have h := hmin y hy
    rw [hgxeq, genObj, if_neg hyp] at h
    have : trueObj W tr y = utility (tr - y) + beta * W y := rfl
    linarith

lemma continuous_utility : Continuous utility := by
  have h : utility = fun c => -(max c EPS)⁻¹ := funext utility_eq
  rw [h]
  refine Continuous.neg (Continuous.inv₀ (continuous_id.max continuous_const) ?_)
  intro x
  exact ne_of_gt (lt_of_lt_of_le EPS_pos (le_max_right _ _))

lemma continuous_midObjective (tr : ℝ) : Continuous (midObjective tr) := by
  have h : midObjective tr = fun a3 => utility (tr - a3) + beta * utility ((1 + r) * a3) :=
    funext fun a3 => rfl
  rw [h]
  exact ((continuous_utility.comp (continuous_const.sub continuous_id)).add
    (continuous_const.mul (continuous_utility.comp (continuous_const.mul continuous_id))))

/-- The penalized middle-age objective attains a minimum on the
feasible interval of any actual cell. -/
lemma exists_min_mid (tr : ℝ) (htr : 0.8 ≤ tr) :
    ∃ x ∈ Set.Icc (0 : ℝ) (max 0 (tr - EPS)), ∀ y ∈ Set.Icc (0 : ℝ) (max 0 (tr - EPS)),
      objectiveMid tr x ≤ objectiveMid tr y := by
  have hEPS : EPS = (1e-8 : ℝ) := rfl
  have htrE : EPS < tr := by rw [hEPS]; linarith
  rw [max_bounds_eq tr htrE]
  have hb0 : (0 : ℝ) ≤ tr - EPS := by rw [hEPS]; linarith
  obtain ⟨x0, hx0mem, hx0max'⟩ :=
    isCompact_Icc.exists_isMaxOn (s := Set.Icc (0 : ℝ) (tr - EPS)) ⟨0, le_refl 0, hb0⟩
      (continuous_midObjective tr).continuousOn
  rw [isMaxOn_iff] at hx0max'
  have hx0max : ∀ y ∈ Set.Icc (0 : ℝ) (tr - EPS), midObjective tr y ≤ midObjective tr x0 :=
    hx0max'
  have hf0 : (-1.25 - 0.985 * 1e8 : ℝ) ≤ midObjective tr 0 := by
    rw [midObjective, sub_zero]
    have h1 := utility_tr_lb tr htr
    have h2 := beta_mul_lb (V_old 0) (V_old_ge 0)
    linarith
  have hfb : midObjective tr (tr - EPS) ≤ -(1e8 : ℝ) := by
    rw [midObjective]
    have h1 : tr - (tr - EPS) = EPS := by ring
    rw [h1, utility_of_le EPS (le_refl EPS), EPS_inv]
    have := beta_mul_nonpos (V_old (tr - EPS)) (V_old_nonpos _)
    linarith
  have hx0f : midObjective tr 0 ≤ midObjective tr x0 := hx0max 0 ⟨le_refl 0, hb0⟩
  have hx0ne : x0 ≠ tr - EPS := by
    intro hcontra
    rw [hcontra] at hx0f
    linarith
  have hx0lt : EPS < tr - x0 := by
    rcases lt_or_eq_of_le hx0mem.2 with h | h
    · linarith
    · exact absurd h hx0ne
  have hgx0 : objectiveMid tr x0 = -(midObjective tr x0) := by
    rw [objectiveMid, if_neg (not_le.mpr hx0lt)]; rfl
  refine ⟨x0, hx0mem, fun y hy => ?_⟩
  by_cases hyp : tr - y ≤ EPS
  · rw [hgx0, objectiveMid, if_pos hyp]
    linarith
  · rw [hgx0, objectiveMid, if_neg hyp]
    have : midObjective tr y = utility (tr - y) + beta * V_old y := rfl
    have hfy := hx0max y hy
    linarith

/-! Strict midpoint concavity of the reciprocal, and uniqueness of the
middle-age maximizer. -/

lemma inv_midpoint_lt (p q : ℝ) (hp : 0 < p) (hq : 0 < q) (hne : p ≠ q) :
    ((p + q) / 2)⁻¹ < (p⁻¹ + q⁻¹) / 2 := by
  have hkey : 0 < (p - q) ^ 2 := by
    rcases (sub_ne_zero.mpr hne).lt_or_lt with h | h <;> nlinarith
  have h1 : ((p + q) / 2)⁻¹ = 2 / (p + q) := by
    rw [inv_div]
  have h2 : (p⁻¹ + q⁻¹) / 2 = (p + q) / (2 * p * q) := by
    field_simp
    ring
  rw [h1, h2, div_lt_div_iff (by linarith) (by positivity)]
  nlinarith

lemma midObjective_closed (tr t : ℝ) (h1 : EPS ≤ tr - t) (h2 : EPS ≤ (1 + r) * t) :
    midObjective tr t = -(tr - t)⁻¹ + beta * -((1 + r) * t)⁻¹ := by
  rw [midObjective, utility_of_ge _ h1, V_old, utility_of_ge _ h2]

lemma mid_half_mem (tr : ℝ) (htr : 0.8 ≤ tr) :
    tr / 2 ∈ Set.Icc (0 : ℝ) (tr - EPS) := by
  have hEPS : EPS = (1e-8 : ℝ) := rfl
  constructor <;> [linarith; (rw [hEPS]; linarith)]

lemma mid_half_lb (tr : ℝ) (htr : 0.8 ≤ tr) : (-5 : ℝ) ≤ midObjective tr (tr / 2) := by
  have hE04 : EPS ≤ (0.4 : ℝ) := by rw [EPS]; norm_num
  have h1 : (-2.5 : ℝ) ≤ utility (tr - tr / 2) := by
    have := utility_lb (tr - tr / 2) 0.4 hE04 (by linarith)
    norm_num at this
    linarith
  have hr04 : (0.4 : ℝ) ≤ (1 + r) * (tr / 2) := by
    nlinarith [onePlusR_ge]
  have h2 : (-2.5 : ℝ) ≤ V_old (tr / 2) := by
    rw [V_old]
    have := utility_lb ((1 + r) * (tr / 2)) 0.4 hE04 hr04
    norm_num at this
    linarith
  have h3 : beta * V_old (tr / 2) ≥ V_old (tr / 2) := by
    nlinarith [beta_le, V_old_nonpos (tr / 2), beta_pos]
  rw [midObjective]
  linarith

/-- Any maximizer of the unpenalized middle-age objective on an actual
cell's interval keeps both consumption and the matured terminal assets
strictly above the floor. -/
lemma mid_maximizer_unfloored (tr z : ℝ) (htr : 0.8 ≤ tr)
    (hz : z ∈ Set.Icc (0 : ℝ) (tr - EPS))
    (hmax : ∀ y ∈ Set.Icc (0 : ℝ) (tr - EPS), midObjective tr y ≤ midObjective tr z) :
    EPS < (1 + r) * z ∧ EPS < tr - z := by
  have hfz : (-5 : ℝ) ≤ midObjective tr z :=
    le_trans (mid_half_lb tr htr) (hmax _ (mid_half_mem tr htr))
  constructor
  · by_contra hc
    push_neg at hc
    have hV : V_old z = -EPS⁻¹ := by rw [V_old, utility_of_le _ hc]
    have h1 : midObjective tr z ≤ 0 + beta * -EPS⁻¹ := by
      rw [midObjective, hV]
      have := utility_nonpos (tr - z)
      linarith
    rw [EPS_inv] at h1
    nlinarith [beta_ge]
  · rcases lt_or_eq_of_le hz.2 with h | h
    · linarith
    · exfalso
      have htrz : tr - z = EPS := by rw [h]; ring
      have h1 : midObjective tr z ≤ -EPS⁻¹ + 0 := by
        rw [midObjective, htrz, utility_of_le EPS (le_refl EPS)]
        have := beta_mul_nonpos (V_old z) (V_old_nonpos z)
        linarith
      rw [EPS_inv] at h1
      linarith

/-- The unpenalized middle-age objective has at most one maximizer on
an actual cell's interval. -/
lemma mid_maximizer_unique (tr x y : ℝ) (htr : 0.8 ≤ tr)
    (hx : x ∈ Set.Icc (0 : ℝ) (tr - EPS))
    (hy : y ∈ Set.Icc (0 : ℝ) (tr - EPS))
    (hmx : ∀ z ∈ Set.Icc (0 : ℝ) (tr - EPS), midObjective tr z ≤ midObjective tr x)
    (hmy : ∀ z ∈ Set.Icc (0 : ℝ) (tr - EPS), midObjective tr z ≤ midObjective tr y) :
    x = y := by
  by_contra hne
  obtain ⟨hxu, hxc⟩ := mid_maximizer_unfloored tr x htr hx hmx
  obtain ⟨hyu, hyc⟩ := mid_maximizer_unfloored tr y htr hy hmy
  have heq : midObjective tr x = midObjective tr y :=
    le_antisymm (hmy x hx) (hmx y hy)
  have hmmem : (x + y) / 2 ∈ Set.Icc (0 : ℝ) (tr - EPS) :=
    ⟨by have := hx.1; have := hy.1; linarith, by have := hx.2; have := hy.2; linarith⟩
  have hmc : EPS ≤ tr - (x + y) / 2 := by linarith
  have hmu : EPS ≤ (1 + r) * ((x + y) / 2) := by nlinarith
  have hfm := hmx _ hmmem
  rw [midObjective_closed tr x (le_of_lt hxc) (le_of_lt hxu),
      midObjective_closed tr y (le_of_lt hyc) (le_of_lt hyu)] at heq
  rw [midObjective_closed tr ((x + y) / 2) hmc hmu,
      midObjective_closed tr x (le_of_lt hxc) (le_of_lt hxu)] at hfm
  have e1 : tr - (x + y) / 2 = ((tr - x) + (tr - y)) / 2 := by ring
  have e2 : (1 + r) * ((x + y) / 2) = ((1 + r) * x + (1 + r) * y) / 2 := by ring
  have hpx : (0 : ℝ) < tr - x := lt_trans EPS_pos hxc
  have hpy : (0 : ℝ) < tr - y := lt_trans EPS_pos hyc
  have hux : (0 : ℝ) < (1 + r) * x := lt_trans EPS_pos hxu
  have huy : (0 : ℝ) < (1 + r) * y := lt_trans EPS_pos hyu
  have hne1 : tr - x ≠ tr - y := fun h => hne (by linarith)
  have hne2 : (1 + r) * x ≠ (1 + r) * y := fun h => hne (by
    have := onePlusR_pos
    field_simp at h
    rcases h with h | h
    · exact h
    · linarith)
  have k1 := inv_midpoint_lt (tr - x) (tr - y) hpx hpy hne1
  have k2 := inv_midpoint_lt ((1 + r) * x) ((1 + r) * y) hux huy hne2
  have k3 := mul_lt_mul_of_pos_left k2 beta_pos
  rw [e1, e2] at hfm
  linarith

/-! Monotone comparative statics: the classic two-point argument.
The continuation value `W` is the same for the two cells and cancels;
the utility term has strictly increasing differences in the choice and
the resources, so any exact minimizers of the penalized code objective
are weakly increasing in total resources. -/

lemma topkis_mono (W : ℝ → ℝ) (tr1 tr2 x1 x2 : ℝ)
    (htr1 : 0.8 ≤ tr1) (h12 : tr1 < tr2)
    (hW0 : -EPS⁻¹ ≤ W 0)
    (hWneg1 : ∀ a ∈ Set.Icc (0 : ℝ) (tr1 - EPS), W a ≤ 0)
    (hWneg2 : ∀ a ∈ Set.Icc (0 : ℝ) (tr2 - EPS), W a ≤ 0)
    (hx1 : x1 ∈ Set.Icc (0 : ℝ) (tr1 - EPS))
    (hmin1 : ∀ y ∈ Set.Icc (0 : ℝ) (tr1 - EPS), genObj W tr1 x1 ≤ genObj W tr1 y)
    (hx2 : x2 ∈ Set.Icc (0 : ℝ) (tr2 - EPS))
    (hmin2 : ∀ y ∈ Set.Icc (0 : ℝ) (tr2 - EPS), genObj W tr2 x2 ≤ genObj W tr2 y) :
    x1 ≤ x2 := by
  by_contra hcon
  push_neg at hcon
  obtain ⟨hok1, hmax1, -⟩ := minimizer_spec W tr1 x1 htr1 hW0 hWneg1 hx1 hmin1
  obtain ⟨hok2, hmax2, -⟩ := minimizer_spec W tr2 x2 (by linarith) hW0 hWneg2 hx2 hmin2
  have hx1in2 : x1 ∈ Set.Icc (0 : ℝ) (tr2 - EPS) := ⟨hx1.1, by have := hx1.2; linarith⟩
  have hx2in1 : x2 ∈ Set.Icc (0 : ℝ) (tr1 - EPS) :=
    ⟨hx2.1, le_of_lt (lt_of_lt_of_le hcon hx1.2)⟩
  have i1 : trueObj W tr2 x1 ≤ trueObj W tr2 x2 := hmax2 x1 hx1in2
  have i2 : trueObj W tr1 x2 ≤ trueObj W tr1 x1 := hmax1 x2 hx2in1
  have hA : EPS < tr1 - x1 := hok1
  have hB : EPS < tr1 - x2 := by linarith
  have hC : EPS < tr2 - x1 := by linarith
  have hD : EPS < tr2 - x2 := hok2
  rw [trueObj, trueObj, utility_of_ge _ (le_of_lt hC), utility_of_ge _ (le_of_lt hD)] at i1
  rw [trueObj, trueObj, utility_of_ge _ (le_of_lt hB), utility_of_ge _ (le_of_lt hA)] at i2
  have hsum : (tr1 - x1)⁻¹ + (tr2 - x2)⁻¹ ≤ (tr1 - x2)⁻¹ + (tr2 - x1)⁻¹ := by
    linarith
  have hApos : (0 : ℝ) < tr1 - x1 := lt_trans EPS_pos hA
  have hBpos : (0 : ℝ) < tr1 - x2 := lt_trans EPS_pos hB
  have hCpos : (0 : ℝ) < tr2 - x1 := lt_trans EPS_pos hC
  have hDpos : (0 : ℝ) < tr2 - x2 := lt_trans EPS_pos hD
  have e1 : (tr1 - x1)⁻¹ - (tr1 - x2)⁻¹ =
      ((tr1 - x2) - (tr1 - x1)) / ((tr1 - x1) * (tr1 - x2)) := by
    field_simp
  have e2 : (tr2 - x1)⁻¹ - (tr2 - x2)⁻¹ =
      ((tr2 - x2) - (tr2 - x1)) / ((tr2 - x1) * (tr2 - x2)) := by
    field_simp
  have hdiff : ((tr1 - x2) - (tr1 - x1)) / ((tr1 - x1) * (tr1 - x2)) ≤
      ((tr2 - x2) - (tr2 - x1)) / ((tr2 - x1) * (tr2 - x2)) := by
    linarith
  have hnum : (tr1 - x2) - (tr1 - x1) = x1 - x2 := by ring
  have hnum2 : (tr2 - x2) - (tr2 - x1) = x1 - x2 := by ring
  rw [hnum, hnum2, div_le_div_iff (by positivity) (by positivity)] at hdiff
  have hCA : tr1 - x1 < tr2 - x1 := by linarith
  have hDB : tr1 - x2 < tr2 - x2 := by linarith
  have hprod : (tr1 - x1) * (tr1 - x2) < (tr2 - x1) * (tr2 - x2) := by
    nlinarith [mul_pos hCpos (sub_pos.mpr hDB), mul_pos hBpos (sub_pos.mpr hCA)]
  have hx12 : (0 : ℝ) < x1 - x2 := by linarith
  nlinarith [mul_lt_mul_of_pos_left hprod hx12]

/-! Transition matrix facts. -/

lemma P_nonneg (i k : Fin 3) : 0 ≤ P i k := by fin_cases i <;> fin_cases k <;> norm_num [P]

lemma P_rowsum_le_two (i : Fin 3) : P i 0 + P i 1 + P i 2 ≤ 2 := by
  fin_cases i <;> norm_num [P]

/-! Interpolation facts. -/

lemma gridIdx_val (n : ℕ) (h : n ≤ 99) : (gridIdx n).val = n := by
  simp [gridIdx, min_eq_left h]

lemma gridIdx_eq_self (j : Fin 100) : gridIdx j.val = j := by
  apply Fin.ext
  exact gridIdx_val j.val (by omega)

lemma a_grid_val (j : Fin 100) : a_grid j = (j.val : ℝ) * 5 / 99 := by
  rw [a_grid, a_min, a_max]
  norm_num

lemma a_grid_gridIdx (n : ℕ) (h : n ≤ 99) : a_grid (gridIdx n) = (n : ℝ) * 5 / 99 := by
  rw [a_grid_val, gridIdx_val n h]

lemma bracket_at_grid (j : Fin 100) (h99 : j.val < 99) : bracket (a_grid j) = j.val := by
  rw [bracket, a_grid_val, a_min, a_max]
  have hdiv : (j.val : ℝ) * 5 / 99 / ((5.0 - 0.0) / 99) = (j.val : ℝ) := by
    norm_num
    field_simp
  rw [hdiv, Int.floor_natCast, Int.toNat_natCast]
  exact min_eq_left (by omega)

lemma step_pos : (0 : ℝ) < (a_max - a_min) / 99 := by rw [a_min, a_max]; norm_num

/-- Bracketing property of the interpolation index for interior query
points. -/
lemma bracket_spec (x : ℝ) (h0 : a_min < x) (h5 : x < a_max) :
    bracket x ≤ 98 ∧ a_grid (gridIdx (bracket x)) ≤ x ∧
      x < a_grid (gridIdx (bracket x + 1)) := by
  rw [a_min] at h0
  rw [a_max] at h5
  norm_num at h0 h5
  have hyval : x / ((a_max - a_min) / 99) = x * 99 / 5 := by
    rw [a_min, a_max]
    norm_num
    field_simp
  set y : ℝ := x * 99 / 5 with hydef
  have hypos : 0 < y := by rw [hydef]; positivity
  have hylt : y < 99 := by rw [hydef]; linarith
  have hfl0 : 0 ≤ ⌊y⌋ := Int.floor_nonneg.mpr (le_of_lt hypos)
  have hfl99 : ⌊y⌋ < 99 := by
    have h1 : (⌊y⌋ : ℝ) ≤ y := Int.floor_le y
    exact_mod_cast lt_of_le_of_lt h1 hylt
  have hbr : bracket x = ⌊y⌋.toNat := by
    rw [bracket, hyval]
    exact min_eq_left (by omega)
  have hble : bracket x ≤ 98 := by omega
  have hcast : ((bracket x : ℕ) : ℝ) = ((⌊y⌋ : ℤ) : ℝ) := by
    have h2 : ((⌊y⌋.toNat : ℕ) : ℤ) = ⌊y⌋ := Int.toNat_of_nonneg hfl0
    rw [hbr]
    exact_mod_cast h2
  refine ⟨hble, ?_, ?_⟩
  · rw [a_grid_gridIdx (bracket x) (by omega), hcast]
    have h1 : ((⌊y⌋ : ℤ) : ℝ) ≤ y := Int.floor_le y
    rw [hydef] at h1
    linarith
  · rw [a_grid_gridIdx (bracket x + 1) (by omega)]
    push_cast
    rw [hcast]
    have h2 : y < ((⌊y⌋ : ℤ) : ℝ) + 1 := Int.lt_floor_add_one y
    rw [hydef] at h2
    linarith

/-- The interpolator reproduces the table exactly at grid points. -/
lemma interp_at_grid (row : Fin 100 → ℝ) (j : Fin 100) : interp row (a_grid j) = row j := by
  rcases Nat.eq_zero_or_pos j.val with h0 | h0
  · have hj : a_grid j = a_min := by rw [a_grid_val, h0, a_min]; norm_num
    rw [interp, if_pos (le_of_eq hj)]
    congr 1
    apply Fin.ext
    rw [gridIdx_val 0 (by omega), h0]
  · rcases Nat.lt_or_ge j.val 99 with h99 | h99
    · have hpos : a_min < a_grid j := by
        rw [a_grid_val, a_min]
        have : (0 : ℝ) < (j.val : ℝ) := by exact_mod_cast h0
        norm_num
        positivity
      have hlt : a_grid j < a_max := by
        rw [a_grid_val, a_max]
        have : (j.val : ℝ) < 99 := by exact_mod_cast h99
        norm_num
        linarith
      rw [interp, if_neg (not_le.mpr hpos), if_neg (not_le.mpr hlt),
        bracket_at_grid j h99, gridIdx_eq_self j]
      rw [sub_self]
      ring
    · have hj : j.val = 99 := by omega
      have hjv : a_grid j = a_max := by rw [a_grid_val, hj, a_max]; norm_num
      have hpos : ¬ a_grid j ≤ a_min := by rw [hjv, a_max, a_min]; norm_num
      rw [interp, if_neg hpos, if_pos (le_of_eq hjv.symm)]
      congr 1
      apply Fin.ext
      rw [gridIdx_val 99 (by omega), hj]

/-- The interpolated value stays between any uniform bounds on the
table row. -/
lemma interp_mem (row : Fin 100 → ℝ) (x lo hi : ℝ)
    (h : ∀ l : Fin 100, lo ≤ row l ∧ row l ≤ hi) :
    lo ≤ interp row x ∧ interp row x ≤ hi := by
  rw [interp]
  split_ifs with h1 h2
  · exact h _
  · exact h _
  · obtain ⟨hble, hlo, hhi⟩ := bracket_spec x (not_le.mp h1) (not_le.mp h2)
    have hΔ : a_grid (gridIdx (bracket x + 1)) - a_grid (gridIdx (bracket x)) = 5 / 99 := by
      rw [a_grid_gridIdx _ (by omega), a_grid_gridIdx _ (by omega)]
      push_cast
      ring
    set g0 : ℝ := a_grid (gridIdx (bracket x)) with hg0
    set g1 : ℝ := a_grid (gridIdx (bracket x + 1)) with hg1
    set t : ℝ := (x - g0) / (g1 - g0) with ht
    have hΔpos : (0 : ℝ) < g1 - g0 := by rw [hΔ]; norm_num
    have ht0 : 0 ≤ t := div_nonneg (by linarith) (le_of_lt hΔpos)
    have ht1 : t ≤ 1 := by
      rw [ht, div_le_one hΔpos]
      linarith
    have hvt : row (gridIdx (bracket x)) +
        (row (gridIdx (bracket x + 1)) - row (gridIdx (bracket x))) * (x - g0) / (g1 - g0) =
        row (gridIdx (bracket x)) +
          (row (gridIdx (bracket x + 1)) - row (gridIdx (bracket x))) * t := by
      rw [ht, mul_div_assoc]
    rw [hvt]
    obtain ⟨ha1, ha2⟩ := h (gridIdx (bracket x))
    obtain ⟨hb1, hb2⟩ := h (gridIdx (bracket x + 1))
    constructor <;> nlinarith

/-- Interpolating the all-zero row gives zero everywhere. -/
lemma interp_zero_row (x : ℝ) : interp (fun _ => (0 : ℝ)) x = 0 := by
  rw [interp]
  split_ifs <;> norm_num

lemma expectedVm_zeroTable (i : Fin 3) (x : ℝ) : expectedVm zeroTable i x = 0 := by
  rw [expectedVm]
  have h0 : ∀ k : Fin 3, interp (zeroTable k) x = 0 := fun k => interp_zero_row x
  rw [h0 0, h0 1, h0 2]
  ring

/-- Uniform bounds on the expected continuation value from uniform
bounds on the middle-age table. -/
lemma expectedVm_bounds (Vm : Fin 3 → Fin 100 → ℝ) (i : Fin 3) (x lo : ℝ)
    (hlo : lo ≤ 0) (hVm : ∀ (k : Fin 3) (l : Fin 100), lo ≤ Vm k l ∧ Vm k l ≤ 0) :
    2 * lo ≤ expectedVm Vm i x ∧ expectedVm Vm i x ≤ 0 := by
  have h0 := interp_mem (Vm 0) x lo 0 (hVm 0)
  have h1 := interp_mem (Vm 1) x lo 0 (hVm 1)
  have h2 := interp_mem (Vm 2) x lo 0 (hVm 2)
  have hs := P_rowsum_le_two i
  have p0 := P_nonneg i 0
  have p1 := P_nonneg i 1
  have p2 := P_nonneg i 2
  rw [expectedVm]
  constructor
  · nlinarith [mul_le_mul_of_nonneg_left h0.1 p0, mul_le_mul_of_nonneg_left h1.1 p1,
      mul_le_mul_of_nonneg_left h2.1 p2]
  · nlinarith [mul_nonpos_of_nonneg_of_nonpos p0 h0.2,
      mul_nonpos_of_nonneg_of_nonpos p1 h1.2, mul_nonpos_of_nonneg_of_nonpos p2 h2.2]

/-- With the all-zero table, zero saving is an exact minimizer of the
young-age code objective. -/
lemma exists_min_young_zero (i : Fin 3) (tr : ℝ) (htr : 0.8 ≤ tr) :
    ∃ x ∈ Set.Icc (0 : ℝ) (max 0 (tr - EPS)), ∀ y ∈ Set.Icc (0 : ℝ) (max 0 (tr - EPS)),
      objectiveYoung zeroTable i tr x ≤ objectiveYoung zeroTable i tr y := by
  have hEPS : EPS = (1e-8 : ℝ) := rfl
  have htrE : EPS < tr := by rw [hEPS]; linarith
  refine ⟨0, ⟨le_refl 0, le_max_left 0 _⟩, fun y hy => ?_⟩
  rw [max_bounds_eq tr htrE] at hy
  have h00 : objectiveYoung zeroTable i tr 0 = tr⁻¹ := by
    rw [objectiveYoung, if_neg (by rw [sub_zero]; push_neg; linarith),
      expectedVm_zeroTable, sub_zero, utility_of_ge tr (le_of_lt htrE)]
    ring
  have htrinv : tr⁻¹ ≤ 1.25 := by
    have h1 : tr⁻¹ ≤ (0.8 : ℝ)⁻¹ := inv_anti₀ (by norm_num) htr
    norm_num at h1
    linarith
  rw [h00, objectiveYoung]
  split_ifs with hpen
  · linarith
  · rw [expectedVm_zeroTable, utility_of_ge (tr - y) (le_of_lt (not_le.mp hpen))]
    have h2 : tr⁻¹ ≤ (tr - y)⁻¹ := inv_anti₀ (lt_trans EPS_pos (not_le.mp hpen)) (by linarith [hy.1])
    linarith

lemma argminOn_spec (f : ℝ → ℝ) (lo hi : ℝ)
    (h : ∃ x ∈ Set.Icc lo hi, ∀ y ∈ Set.Icc lo hi, f x ≤ f y) :
    argminOn f lo hi ∈ Set.Icc lo hi ∧
      ∀ y ∈ Set.Icc lo hi, f (argminOn f lo hi) ≤ f y := by
  rw [argminOn, dif_pos h]
  exact h.choose_spec

/-! Unfolding the recorded table entries on the non-degenerate branch. -/

lemma policyMiddle_eq (opt : (ℝ → ℝ) → ℝ → ℝ → ℝ) (i : Fin 3) (j : Fin 100) :
    policyMiddle opt i j =
      opt (objectiveMid (totalRes i j)) 0 (max 0 (totalRes i j - EPS)) := by
  rw [policyMiddle, solveMiddleCell, solveMiddleCellTR_pos opt (totalRes i j) (totalRes_gt_EPS i j)]

lemma valueMiddle_eq (opt : (ℝ → ℝ) → ℝ → ℝ → ℝ) (i : Fin 3) (j : Fin 100) :
    valueMiddle opt i j = -(objectiveMid (totalRes i j) (policyMiddle opt i j)) := by
  rw [policyMiddle, valueMiddle, solveMiddleCell,
    solveMiddleCellTR_pos opt (totalRes i j) (totalRes_gt_EPS i j)]

lemma policyYoung_eq (opt : (ℝ → ℝ) → ℝ → ℝ → ℝ) (Vm : Fin 3 → Fin 100 → ℝ)
    (i : Fin 3) (j : Fin 100) :
    policyYoung opt Vm i j =
      opt (objectiveYoung Vm i (totalRes i j)) 0 (max 0 (totalRes i j - EPS)) := by
  rw [policyYoung, solveYoungCell,
    solveYoungCellTR_pos opt Vm i (totalRes i j) (totalRes_gt_EPS i j)]

lemma valueYoung_eq (opt : (ℝ → ℝ) → ℝ → ℝ → ℝ) (Vm : Fin 3 → Fin 100 → ℝ)
    (i : Fin 3) (j : Fin 100) :
    valueYoung opt Vm i j =
      -(objectiveYoung Vm i (totalRes i j) (policyYoung opt Vm i j)) := by
  rw [policyYoung, valueYoung, solveYoungCell,
    solveYoungCellTR_pos opt Vm i (totalRes i j) (totalRes_gt_EPS i j)]

/-- The middle-age value table produced by an exact cell solve lies in
[-5, 0], hence in particular in the [-1e7, 0] band assumed of the
young stage's input table. -/
lemma valueMiddle_bounded (opt : (ℝ → ℝ) → ℝ → ℝ → ℝ) (i : Fin 3) (j : Fin 100)
    (hmem : policyMiddle opt i j ∈ Set.Icc (0 : ℝ) (totalRes i j - EPS))
    (hmin : ∀ y ∈ Set.Icc (0 : ℝ) (totalRes i j - EPS),
      objectiveMid (totalRes i j) (policyMiddle opt i j) ≤ objectiveMid (totalRes i j) y) :
    -5 ≤ valueMiddle opt i j ∧ valueMiddle opt i j ≤ 0 := by
  have htr8 : (0.8 : ℝ) ≤ totalRes i j := le_trans (by norm_num) (totalRes_ge i j)
  obtain ⟨hok, hmax, hval⟩ := minimizer_spec V_old (totalRes i j) (policyMiddle opt i j)
    htr8 (V_old_ge 0) (fun a _ => V_old_nonpos a) hmem hmin
  have hvm : valueMiddle opt i j = trueObj V_old (totalRes i j) (policyMiddle opt i j) := by
    rw [valueMiddle_eq opt i j]
    exact hval
  rw [hvm]
  constructor
  · have h1 := hmax (totalRes i j / 2) (mid_half_mem (totalRes i j) htr8)
    have h2 := mid_half_lb (totalRes i j) htr8
    have h3 : midObjective (totalRes i j) (totalRes i j / 2) =
        trueObj V_old (totalRes i j) (totalRes i j / 2) := rfl
    rw [h3] at h2
    linarith
  · have h1 := utility_nonpos (totalRes i j - policyMiddle opt i j)
    have h2 := beta_mul_nonpos (V_old (policyMiddle opt i j)) (V_old_nonpos _)
    rw [trueObj]
    linarith

/-! Claim theorems. -/

/-- C1: for every productivity type i and grid index j with
total_resources > EPS, a middle-age cell solve with an exact bounded
minimizer records in value_middle the maximum of the spec objective
utility(total_resources - a3) + beta * terminal_value(a3) over the
closed interval [0, total_resources - EPS], and in policy_middle a
maximizer of that objective, which is in fact its unique maximizer. -/
theorem middleStage_records_max_and_unique_argmax
    (opt : (ℝ → ℝ) → ℝ → ℝ → ℝ) (i : Fin 3) (j : Fin 100)
    (htr : EPS < totalRes i j)
    (hmem : policyMiddle opt i j ∈ Set.Icc (0 : ℝ) (totalRes i j - EPS))
    (hmin : ∀ y ∈ Set.Icc (0 : ℝ) (totalRes i j - EPS),
      objectiveMid (totalRes i j) (policyMiddle opt i j) ≤ objectiveMid (totalRes i j) y) :
    (∀ y ∈ Set.Icc (0 : ℝ) (totalRes i j - EPS),
      midObjective (totalRes i j) y ≤ midObjective (totalRes i j) (policyMiddle opt i j)) ∧
    valueMiddle opt i j = midObjective (totalRes i j) (policyMiddle opt i j) ∧
    (∀ z ∈ Set.Icc (0 : ℝ) (totalRes i j - EPS),
      (∀ y ∈ Set.Icc (0 : ℝ) (totalRes i j - EPS),
        midObjective (totalRes i j) y ≤ midObjective (totalRes i j) z) →
      z = policyMiddle opt i j) := by
  have htr8 : (0.8 : ℝ) ≤ totalRes i j := le_trans (by norm_num) (totalRes_ge i j)
  obtain ⟨hok, hmax, hval⟩ := minimizer_spec V_old (totalRes i j) (policyMiddle opt i j)
    htr8 (V_old_ge 0) (fun a _ => V_old_nonpos a) hmem hmin
  refine ⟨hmax, ?_, ?_⟩
  · rw [valueMiddle_eq opt i j]
    exact hval
  · intro z hz hzmax
    exact mid_maximizer_unique (totalRes i j) z (policyMiddle opt i j) htr8 hz hmem hzmax hmax

/-- Witness for C1: the concrete cell (0, 0) solved with the exact
bounded minimizer `argminOn`. -/
theorem middleStage_records_max_and_unique_argmax_instance :
    (∀ y ∈ Set.Icc (0 : ℝ) (totalRes 0 0 - EPS),
      midObjective (totalRes 0 0) y ≤ midObjective (totalRes 0 0) (policyMiddle argminOn 0 0)) ∧
    valueMiddle argminOn 0 0 = midObjective (totalRes 0 0) (policyMiddle argminOn 0 0) ∧
    (∀ z ∈ Set.Icc (0 : ℝ) (totalRes 0 0 - EPS),
      (∀ y ∈ Set.Icc (0 : ℝ) (totalRes 0 0 - EPS),
        midObjective (totalRes 0 0) y ≤ midObjective (totalRes 0 0) z) →
      z = policyMiddle argminOn 0 0) := by
  have hex := exists_min_mid (totalRes 0 0) (le_trans (by norm_num) (totalRes_ge 0 0))
  have hspec := argminOn_spec (objectiveMid (totalRes 0 0)) 0
    (max 0 (totalRes 0 0 - EPS)) hex
  have hmax0 : max 0 (totalRes 0 0 - EPS) = totalRes 0 0 - EPS :=
    max_bounds_eq _ (totalRes_gt_EPS 0 0)
  refine middleStage_records_max_and_unique_argmax argminOn 0 0 (totalRes_gt_EPS 0 0) ?_ ?_
  · have h1 := hspec.1
    rw [Set.mem_Icc] at h1
    rw [policyMiddle_eq argminOn 0 0, Set.mem_Icc]
    exact ⟨h1.1, le_trans h1.2 (le_of_eq hmax0)⟩
  · intro y hy
    rw [← hmax0] at hy
    rw [policyMiddle_eq argminOn 0 0]
    exact hspec.2 y hy

/-- C2: for every productivity type i and grid index j with
total_resources > EPS, and any middle-age value table with entries in
[-1e7, 0] (as the actual table has), a young-age cell solve with an
exact bounded minimizer records in value_young the attained maximum of
utility(total_resources - a2) + beta * sum over k of P[i,k] times the
linear interpolation of the table row k at a2, over
[0, total_resources - EPS], and in policy_young a maximizer. -/
theorem youngStage_records_max
    (opt : (ℝ → ℝ) → ℝ → ℝ → ℝ) (Vm : Fin 3 → Fin 100 → ℝ) (i : Fin 3) (j : Fin 100)
    (hVm : ∀ (k : Fin 3) (l : Fin 100), Vm k l ∈ Set.Icc (-(10 ^ 7) : ℝ) 0)
    (htr : EPS < totalRes i j)
    (hmem : policyYoung opt Vm i j ∈ Set.Icc (0 : ℝ) (totalRes i j - EPS))
    (hmin : ∀ y ∈ Set.Icc (0 : ℝ) (totalRes i j - EPS),
      objectiveYoung Vm i (totalRes i j) (policyYoung opt Vm i j) ≤
        objectiveYoung Vm i (totalRes i j) y) :
    (∀ y ∈ Set.Icc (0 : ℝ) (totalRes i j - EPS),
      youngObjective Vm i (totalRes i j) y ≤
        youngObjective Vm i (totalRes i j) (policyYoung opt Vm i j)) ∧
    valueYoung opt Vm i j =
      youngObjective Vm i (totalRes i j) (policyYoung opt Vm i j) := by
  have htr8 : (0.8 : ℝ) ≤ totalRes i j := le_trans (by norm_num) (totalRes_ge i j)
  have hVm' : ∀ (k : Fin 3) (l : Fin 100), -(10 ^ 7 : ℝ) ≤ Vm k l ∧ Vm k l ≤ 0 :=
    fun k l => ⟨(hVm k l).1, (hVm k l).2⟩
  have hW0 : -EPS⁻¹ ≤ expectedVm Vm i 0 := by
    have h := (expectedVm_bounds Vm i 0 (-(10 ^ 7)) (by norm_num) hVm').1
    rw [EPS_inv]
    norm_num at h ⊢
    linarith
  have hWneg : ∀ a ∈ Set.Icc (0 : ℝ) (totalRes i j - EPS), expectedVm Vm i a ≤ 0 :=
    fun a _ => (expectedVm_bounds Vm i a (-(10 ^ 7)) (by norm_num) hVm').2
  obtain ⟨hok, hmax, hval⟩ := minimizer_spec (expectedVm Vm i) (totalRes i j)
    (policyYoung opt Vm i j) htr8 hW0 hWneg hmem hmin
  refine ⟨hmax, ?_⟩
  rw [valueYoung_eq opt Vm i j]
  exact hval

/-- Witness for C2: the concrete cell (0, 0) with the all-zero
middle-age table and the exact bounded minimizer. -/
theorem youngStage_records_max_instance :
    (∀ y ∈ Set.Icc (0 : ℝ) (totalRes 0 0 - EPS),
      youngObjective zeroTable 0 (totalRes 0 0) y ≤
        youngObjective zeroTable 0 (totalRes 0 0) (policyYoung argminOn zeroTable 0 0)) ∧
    valueYoung argminOn zeroTable 0 0 =
      youngObjective zeroTable 0 (totalRes 0 0) (policyYoung argminOn zeroTable 0 0) := by
  have hex := exists_min_young_zero 0 (totalRes 0 0) (le_trans (by norm_num) (totalRes_ge 0 0))
  have hspec := argminOn_spec (objectiveYoung zeroTable 0 (totalRes 0 0)) 0
    (max 0 (totalRes 0 0 - EPS)) hex
  have hmax0 : max 0 (totalRes 0 0 - EPS) = totalRes 0 0 - EPS :=
    max_bounds_eq _ (totalRes_gt_EPS 0 0)
  refine youngStage_records_max argminOn zeroTable 0 0
    (fun k l => by rw [zeroTable]; constructor <;> norm_num) (totalRes_gt_EPS 0 0) ?_ ?_
  · have h1 := hspec.1
    rw [Set.mem_Icc] at h1
    rw [policyYoung_eq argminOn zeroTable 0 0, Set.mem_Icc]
    exact ⟨h1.1, le_trans h1.2 (le_of_eq hmax0)⟩
  · intro y hy
    rw [← hmax0] at hy
    rw [policyYoung_eq argminOn zeroTable 0 0]
    exact hspec.2 y hy

/-- C3: under the ScalarOptimizer contract that the returned point lies
within the requested bounds, every recorded policy entry of both stages
lies in [0, total_resources - EPS], equivalently the implied
consumption total_resources - policy is at least EPS. -/
theorem policies_within_bounds
    (opt : (ℝ → ℝ) → ℝ → ℝ → ℝ) (Vm : Fin 3 → Fin 100 → ℝ) (i : Fin 3) (j : Fin 100)
    (hopt : ∀ (f : ℝ → ℝ) (lo hi : ℝ), lo ≤ hi → opt f lo hi ∈ Set.Icc lo hi) :
    (0 ≤ policyMiddle opt i j ∧ policyMiddle opt i j ≤ totalRes i j - EPS ∧
      EPS ≤ totalRes i j - policyMiddle opt i j) ∧
    (0 ≤ policyYoung opt Vm i j ∧ policyYoung opt Vm i j ≤ totalRes i j - EPS ∧
      EPS ≤ totalRes i j - policyYoung opt Vm i j) := by
  have hmax0 : max 0 (totalRes i j - EPS) = totalRes i j - EPS :=
    max_bounds_eq _ (totalRes_gt_EPS i j)
  have hble : (0 : ℝ) ≤ max 0 (totalRes i j - EPS) := le_max_left 0 _
  constructor
  · have h := hopt (objectiveMid (totalRes i j)) 0 (max 0 (totalRes i j - EPS)) hble
    rw [← policyMiddle_eq opt i j, hmax0] at h
    exact ⟨h.1, h.2, by linarith [h.2]⟩
  · have h := hopt (objectiveYoung Vm i (totalRes i j)) 0 (max 0 (totalRes i j - EPS)) hble
    rw [← policyYoung_eq opt Vm i j, hmax0] at h
    exact ⟨h.1, h.2, by linarith [h.2]⟩

/-- Witness for C3: the in-bounds optimizer returning the lower bound,
at the concrete cell (0, 0). -/
theorem policies_within_bounds_instance :
    (0 ≤ policyMiddle lowOpt 0 0 ∧ policyMiddle lowOpt 0 0 ≤ totalRes 0 0 - EPS ∧
      EPS ≤ totalRes 0 0 - policyMiddle lowOpt 0 0) ∧
    (0 ≤ policyYoung lowOpt zeroTable 0 0 ∧
      policyYoung lowOpt zeroTable 0 0 ≤ totalRes 0 0 - EPS ∧
      EPS ≤ totalRes 0 0 - policyYoung lowOpt zeroTable 0 0) :=
  policies_within_bounds lowOpt zeroTable 0 0
    (fun _ lo _ h => ⟨le_refl lo, h⟩)

/-- C4: with exact per-cell minimizers (and, for the young stage, a
middle-age table bounded in [-1e7, 0] as the actual one is), the rows
of policy_middle and policy_young are weakly increasing in the grid
index. -/
theorem policies_monotone_in_assets
    (opt : (ℝ → ℝ) → ℝ → ℝ → ℝ) (Vm : Fin 3 → Fin 100 → ℝ) (i : Fin 3) (j1 j2 : Fin 100)
    (hj : j1 ≤ j2)
    (hVm : ∀ (k : Fin 3) (l : Fin 100), Vm k l ∈ Set.Icc (-(10 ^ 7) : ℝ) 0)
    (hm1mem : policyMiddle opt i j1 ∈ Set.Icc (0 : ℝ) (totalRes i j1 - EPS))
    (hm1min : ∀ y ∈ Set.Icc (0 : ℝ) (totalRes i j1 - EPS),
      objectiveMid (totalRes i j1) (policyMiddle opt i j1) ≤ objectiveMid (totalRes i j1) y)
    (hm2mem : policyMiddle opt i j2 ∈ Set.Icc (0 : ℝ) (totalRes i j2 - EPS))
    (hm2min : ∀ y ∈ Set.Icc (0 : ℝ) (totalRes i j2 - EPS),
      objectiveMid (totalRes i j2) (policyMiddle opt i j2) ≤ objectiveMid (totalRes i j2) y)
    (hy1mem : policyYoung opt Vm i j1 ∈ Set.Icc (0 : ℝ) (totalRes i j1 - EPS))
    (hy1min : ∀ y ∈ Set.Icc (0 : ℝ) (totalRes i j1 - EPS),
      objectiveYoung Vm i (totalRes i j1) (policyYoung opt Vm i j1) ≤
        objectiveYoung Vm i (totalRes i j1) y)
    (hy2mem : policyYoung opt Vm i j2 ∈ Set.Icc (0 : ℝ) (totalRes i j2 - EPS))
    (hy2min : ∀ y ∈ Set.Icc (0 : ℝ) (totalRes i j2 - EPS),
      objectiveYoung Vm i (totalRes i j2) (policyYoung opt Vm i j2) ≤
        objectiveYoung Vm i (totalRes i j2) y) :
    policyMiddle opt i j1 ≤ policyMiddle opt i j2 ∧
      policyYoung opt Vm i j1 ≤ policyYoung opt Vm i j2 := by
  rcases eq_or_lt_of_le hj with heq | hlt
  · rw [heq]
    exact ⟨le_refl _, le_refl _⟩
  · have htr1 : (0.8 : ℝ) ≤ totalRes i j1 := le_trans (by norm_num) (totalRes_ge i j1)
    have htr12 : totalRes i j1 < totalRes i j2 := totalRes_strictMono i j1 j2 hlt
    have hVm' : ∀ (k : Fin 3) (l : Fin 100), -(10 ^ 7 : ℝ) ≤ Vm k l ∧ Vm k l ≤ 0 :=
      fun k l => ⟨(hVm k l).1, (hVm k l).2⟩
    have hW0 : -EPS⁻¹ ≤ expectedVm Vm i 0 := by
      have h := (expectedVm_bounds Vm i 0 (-(10 ^ 7)) (by norm_num) hVm').1
      rw [EPS_inv]
      norm_num at h ⊢
      linarith
    constructor
    · exact topkis_mono V_old (totalRes i j1) (totalRes i j2)
        (policyMiddle opt i j1) (policyMiddle opt i j2) htr1 htr12 (V_old_ge 0)
        (fun a _ => V_old_nonpos a) (fun a _ => V_old_nonpos a)
        hm1mem hm1min hm2mem hm2min
    · exact topkis_mono (expectedVm Vm i) (totalRes i j1) (totalRes i j2)
        (policyYoung opt Vm i j1) (policyYoung opt Vm i j2) htr1 htr12 hW0
        (fun a _ => (expectedVm_bounds Vm i a (-(10 ^ 7)) (by norm_num) hVm').2)
        (fun a _ => (expectedVm_bounds Vm i a (-(10 ^ 7)) (by norm_num) hVm').2)
        hy1mem hy1min hy2mem hy2min

/-- Witness for C4: cells (0, 0) and (0, 1) with the exact minimizer
and the all-zero middle-age table. -/
theorem policies_monotone_in_assets_instance :
    policyMiddle argminOn 0 0 ≤ policyMiddle argminOn 0 1 ∧
      policyYoung argminOn zeroTable 0 0 ≤ policyYoung argminOn zeroTable 0 1 := by
  have hm0 := exists_min_mid (totalRes 0 0) (le_trans (by norm_num) (totalRes_ge 0 0))
  have hm1 := exists_min_mid (totalRes 0 1) (le_trans (by norm_num) (totalRes_ge 0 1))
  have hy0 := exists_min_young_zero 0 (totalRes 0 0) (le_trans (by norm_num) (totalRes_ge 0 0))
  have hy1 := exists_min_young_zero 0 (totalRes 0 1) (le_trans (by norm_num) (totalRes_ge 0 1))
  have hsm0 := argminOn_spec _ _ _ hm0
  have hsm1 := argminOn_spec _ _ _ hm1
  have hsy0 := argminOn_spec _ _ _ hy0
  have hsy1 := argminOn_spec _ _ _ hy1
  have he0 : max 0 (totalRes 0 0 - EPS) = totalRes 0 0 - EPS :=
    max_bounds_eq _ (totalRes_gt_EPS 0 0)
  have he1 : max 0 (totalRes 0 1 - EPS) = totalRes 0 1 - EPS :=
    max_bounds_eq _ (totalRes_gt_EPS 0 1)
  refine policies_monotone_in_assets argminOn zeroTable 0 0 1 (by norm_num [Fin.le_def])
    (fun k l => by rw [zeroTable]; constructor <;> norm_num) ?_ ?_ ?_ ?_ ?_ ?_ ?_ ?_
  · have h1 := hsm0.1
    rw [Set.mem_Icc] at h1
    rw [policyMiddle_eq argminOn 0 0, Set.mem_Icc]
    exact ⟨h1.1, le_trans h1.2 (le_of_eq he0)⟩
  · intro y hy
    rw [← he0] at hy
    rw [policyMiddle_eq argminOn 0 0]
    exact hsm0.2 y hy
  · have h1 := hsm1.1
    rw [Set.mem_Icc] at h1
    rw [policyMiddle_eq argminOn 0 1, Set.mem_Icc]
    exact ⟨h1.1, le_trans h1.2 (le_of_eq he1)⟩
  · intro y hy
    rw [← he1] at hy
    rw [policyMiddle_eq argminOn 0 1]
    exact hsm1.2 y hy
  · have h1 := hsy0.1
    rw [Set.mem_Icc] at h1
    rw [policyYoung_eq argminOn zeroTable 0 0, Set.mem_Icc]
    exact ⟨h1.1, le_trans h1.2 (le_of_eq he0)⟩
  · intro y hy
    rw [← he0] at hy
    rw [policyYoung_eq argminOn zeroTable 0 0]
    exact hsy0.2 y hy
  · have h1 := hsy1.1
    rw [Set.mem_Icc] at h1
    rw [policyYoung_eq argminOn zeroTable 0 1, Set.mem_Icc]
    exact ⟨h1.1, le_trans h1.2 (le_of_eq he1)⟩
  · intro y hy
    rw [← he1] at hy
    rw [policyYoung_eq argminOn zeroTable 0 1]
    exact hsy1.2 y hy

/-- C5 counterexample: strict monotonicity of the utility function
fails for positive consumptions below the floor EPS = 1e-8; both
5e-9 and 1e-8 are floored to the same utility value. -/
theorem utility_strict_mono_fails_below_floor :
    (0 : ℝ) < 5e-9 ∧ (5e-9 : ℝ) < 1e-8 ∧ utility (5e-9) = utility (1e-8) ∧
      ¬ utility (5e-9) < utility (1e-8) := by
  have h1 : utility (5e-9 : ℝ) = -EPS⁻¹ := utility_of_le _ (by norm_num [EPS])
  have h2 : utility (1e-8 : ℝ) = -EPS⁻¹ := utility_of_le _ (by norm_num [EPS])
  exact ⟨by norm_num, by norm_num, by rw [h1, h2], by rw [h1, h2]; exact lt_irrefl _⟩

/-- C5 amended: the utility function is strictly increasing on
consumptions at or above the floor EPS (in particular on c > EPS, but
not on all of c > 0), and every input at or below zero is floored to
utility EPS. -/
theorem utility_monotone_amended :
    (∀ c1 c2 : ℝ, EPS ≤ c2 → c2 < c1 → utility c2 < utility c1) ∧
      ∀ c : ℝ, c ≤ 0 → utility c = utility EPS := by
  refine ⟨fun c1 c2 h2 h12 => utility_lt_utility c1 c2 h2 h12, fun c hc => ?_⟩
  rw [utility_of_le c (le_trans hc (le_of_lt EPS_pos)), utility_of_le EPS (le_refl EPS)]

/-- Witness for C5 amended at concrete consumptions. -/
theorem utility_monotone_amended_instance :
    utility 1 < utility 2 ∧ utility (-1) = utility EPS :=
  ⟨utility_monotone_amended.1 2 1 (by rw [EPS]; norm_num) (by norm_num),
   utility_monotone_amended.2 (-1) (by norm_num)⟩

/-- C6 counterexample: the terminal value function is not strictly
increasing on all of a >= 0; at a = 0 and a = 1e-9 the matured assets
are both below the floor, so the two values coincide. -/
theorem terminal_value_strict_mono_fails_near_zero :
    (0 : ℝ) ≤ 0 ∧ (0 : ℝ) < 1e-9 ∧ V_old 0 = V_old 1e-9 ∧ ¬ V_old 0 < V_old 1e-9 := by
  have h1 : V_old (0 : ℝ) = -EPS⁻¹ := V_old_zero
  have h2 : V_old (1e-9 : ℝ) = -EPS⁻¹ := by
    rw [V_old]
    apply utility_of_le
    rw [EPS]
    nlinarith [onePlusR_le, onePlusR_pos]
  exact ⟨le_refl 0, by norm_num, by rw [h1, h2], by rw [h1, h2]; exact lt_irrefl _⟩

/-- C6 amended: terminal_value(a) = utility((1+r)*a) for every a, and
it is strictly increasing wherever the matured assets (1+r)*a1 are at
or above the floor EPS (the strict increase on all of a >= 0 claimed by
the spec fails below EPS/(1+r)). -/
theorem terminal_value_amended :
    (∀ a : ℝ, V_old a = utility ((1 + r) * a)) ∧
      ∀ a1 a2 : ℝ, EPS ≤ (1 + r) * a1 → a1 < a2 → V_old a1 < V_old a2 := by
  refine ⟨fun a => rfl, fun a1 a2 h1 h12 => ?_⟩
  rw [V_old, V_old]
  exact utility_lt_utility _ _ h1 (mul_lt_mul_of_pos_left h12 onePlusR_pos)

/-- Witness for C6 amended at concrete asset levels. -/
theorem terminal_value_amended_instance :
    V_old 5 = utility ((1 + r) * 5) ∧ V_old 1 < V_old 2 :=
  ⟨terminal_value_amended.1 5,
   terminal_value_amended.2 1 2 (by rw [EPS]; nlinarith [onePlusR_ge]) (by norm_num)⟩

/-- C7: whenever a cell's total resources are at most EPS, both stage
solvers take the designed fallback branch: they record policy 0 and
value utility(total_resources), with no error and for any optimizer
and table; all other cells are computed independently of this one. -/
theorem degenerate_resources_fallback
    (opt : (ℝ → ℝ) → ℝ → ℝ → ℝ) (Vm : Fin 3 → Fin 100 → ℝ) (i : Fin 3) (tr : ℝ)
    (h : tr ≤ EPS) :
    solveMiddleCellTR opt tr = (0, utility tr) ∧
      solveYoungCellTR opt Vm i tr = (0, utility tr) := by
  have hEPS : (0 : ℝ) < EPS := EPS_pos
  have hmax : max 0 (tr - EPS) = 0 := max_eq_left (by linarith)
  constructor
  · rw [solveMiddleCellTR, hmax, if_neg (lt_irrefl 0)]
  · rw [solveYoungCellTR, hmax, if_neg (lt_irrefl 0)]

/-- Witness for C7 at total resources zero. -/
theorem degenerate_resources_fallback_instance :
    solveMiddleCellTR lowOpt 0 = (0, utility 0) ∧
      solveYoungCellTR lowOpt zeroTable 0 0 = (0, utility 0) :=
  degenerate_resources_fallback lowOpt zeroTable 0 0 (le_of_lt EPS_pos)

/-- C10: for any cell (all cells have total resources above EPS) and
any candidate choice whose implied consumption is at most EPS, both
per-cell code objectives return the fixed penalty constant 1e10 - in
particular at the upper endpoint total_resources - EPS of the declared
feasible interval - so the negated objective there is -1e10 rather than
the utility-plus-continuation value. -/
theorem objective_penalty_constant
    (Vm : Fin 3 → Fin 100 → ℝ) (i : Fin 3) (j : Fin 100) (a : ℝ)
    (htr : EPS < totalRes i j) (h : totalRes i j - a ≤ EPS) :
    objectiveMid (totalRes i j) a = 1e10 ∧
      objectiveYoung Vm i (totalRes i j) a = 1e10 :=
  ⟨by rw [objectiveMid, if_pos h], by rw [objectiveYoung, if_pos h]⟩

/-- Witness for C10 at the upper endpoint of cell (0, 0). -/
theorem objective_penalty_constant_instance :
    objectiveMid (totalRes 0 0) (totalRes 0 0 - EPS) = 1e10 ∧
      objectiveYoung zeroTable 0 (totalRes 0 0) (totalRes 0 0 - EPS) = 1e10 :=
  objective_penalty_constant zeroTable 0 0 (totalRes 0 0 - EPS) (totalRes_gt_EPS 0 0)
    (by linarith)

/-- C9: the interpolator reproduces the tabulated value exactly at
every grid point, and clamps to the boundary table entries below the
grid minimum and above the grid maximum. -/
theorem interp_exact_and_clamped :
    (∀ (row : Fin 100 → ℝ) (j : Fin 100), interp row (a_grid j) = row j) ∧
    (∀ (row : Fin 100 → ℝ) (x : ℝ), x < a_grid 0 → interp row x = row 0) ∧
    (∀ (row : Fin 100 → ℝ) (x : ℝ), a_grid 99 < x → interp row x = row 99) := by
  have h0 : a_grid (0 : Fin 100) = a_min := by
    rw [a_grid_val, show ((0 : Fin 100)).val = 0 from rfl, a_min]
    norm_num
  have h99 : a_grid (99 : Fin 100) = a_max := by
    rw [a_grid_val, show ((99 : Fin 100)).val = 99 from rfl, a_max]
    norm_num
  refine ⟨interp_at_grid, fun row x hx => ?_, fun row x hx => ?_⟩
  · rw [h0] at hx
    rw [interp, if_pos (le_of_lt hx)]
    congr 1
  · rw [h99] at hx
    have hnot : ¬ x ≤ a_min := by
      rw [a_min]
      rw [a_max] at hx
      norm_num at hx ⊢
      linarith
    rw [interp, if_neg hnot, if_pos (le_of_lt hx)]
    congr 1

/-- Witness for C9 at a concrete row and concrete query points. -/
theorem interp_exact_and_clamped_instance :
    interp (fun l => (l.val : ℝ)) (a_grid 1) = ((1 : Fin 100).val : ℝ) ∧
    interp (fun l => (l.val : ℝ)) (-1) = ((0 : Fin 100).val : ℝ) ∧
    interp (fun l => (l.val : ℝ)) 6 = ((99 : Fin 100).val : ℝ) := by
  refine ⟨interp_exact_and_clamped.1 _ 1, interp_exact_and_clamped.2.1 _ (-1) ?_,
    interp_exact_and_clamped.2.2 _ 6 ?_⟩
  · rw [a_grid_val, show ((0 : Fin 100)).val = 0 from rfl]
    norm_num
  · rw [a_grid_val, show ((99 : Fin 100)).val = 99 from rfl]
    norm_num

/-- C8 counterexample: the shipped transition matrix's second row sums
to 1.0001, not 1, and yet the young-age solver still computes that
row's table cell: the program contains no ConfigurationError and no
validation, so a malformed matrix does not stop it before tables are
produced. -/
theorem no_configuration_error_on_bad_row :
    P 1 0 + P 1 1 + P 1 2 ≠ 1 ∧ solveYoungCell lowOpt zeroTable 1 0 = (0, -1) := by
  have htr1 : totalRes 1 0 = 1 := by
    rw [totalRes, a_grid_val, show ((0 : Fin 100)).val = 0 from rfl]
    norm_num [w]
  constructor
  · norm_num [P]
  · rw [solveYoungCell, solveYoungCellTR_pos lowOpt zeroTable 1 (totalRes 1 0)
      (totalRes_gt_EPS 1 0), htr1]
    have hobj : objectiveYoung zeroTable 1 1 (lowOpt (objectiveYoung zeroTable 1 1) 0
        (max 0 (1 - EPS))) = 1 := by
      rw [show lowOpt (objectiveYoung zeroTable 1 1) 0 (max 0 (1 - EPS)) = 0 from rfl,
        objectiveYoung, if_neg (by rw [sub_zero, EPS]; norm_num),
        expectedVm_zeroTable, sub_zero, utility_of_ge 1 (by rw [EPS]; norm_num)]
      norm_num
    rw [hobj]
    norm_num
    rfl

/-- C8 amended: the program performs no configuration validation and
has no ConfigurationError: the hardcoded second matrix row sums to
1.0001 (the other two rows to 1), gamma = 2, beta and 1+r are positive,
the grid is strictly increasing, and both stage solvers unconditionally
compute every cell through the optimize branch, for any optimizer and
any table, so malformed configuration is silently accepted rather than
raised. -/
theorem no_validation_tables_always_produced :
    P 1 0 + P 1 1 + P 1 2 = 1.0001 ∧
    (P 0 0 + P 0 1 + P 0 2 = 1 ∧ P 2 0 + P 2 1 + P 2 2 = 1) ∧
    gamma ≠ 1 ∧ 0 < beta ∧ 0 < 1 + r ∧
    (∀ (opt : (ℝ → ℝ) → ℝ → ℝ → ℝ) (i : Fin 3) (j : Fin 100),
      solveMiddleCell opt i j =
        (opt (objectiveMid (totalRes i j)) 0 (max 0 (totalRes i j - EPS)),
          -(objectiveMid (totalRes i j)
            (opt (objectiveMid (totalRes i j)) 0 (max 0 (totalRes i j - EPS)))))) ∧
    (∀ (opt : (ℝ → ℝ) → ℝ → ℝ → ℝ) (Vm : Fin 3 → Fin 100 → ℝ) (i : Fin 3) (j : Fin 100),
      solveYoungCell opt Vm i j =
        (opt (objectiveYoung Vm i (totalRes i j)) 0 (max 0 (totalRes i j - EPS)),
          -(objectiveYoung Vm i (totalRes i j)
            (opt (objectiveYoung Vm i (totalRes i j)) 0 (max 0 (totalRes i j - EPS)))))) := by
  refine ⟨by norm_num [P], ⟨by norm_num [P], by norm_num [P]⟩,
    by rw [gamma]; norm_num, beta_pos, onePlusR_pos, ?_, ?_⟩
  · intro opt i j
    rw [solveMiddleCell]
    exact solveMiddleCellTR_pos opt (totalRes i j) (totalRes_gt_EPS i j)
  · intro opt Vm i j
    rw [solveYoungCell]
    exact solveYoungCellTR_pos opt Vm i (totalRes i j) (totalRes_gt_EPS i j)

end Question1
